import Mathlib

/-!
Verification development for the `reroute` crate (src/lib.rs): a small HTTP
request router built on regex matching.  We shallowly embed the data model
(Router, RouterBuilder, requests, responses, captures), the regex primitive
(as an AST with an executable leftmost-first matcher with capture groups,
modelling the `regex` crate's anchors, classes, repetition, alternation and
group-capture semantics for the fragment the routes use), pattern
compilation (a recursive-descent parser from pattern strings, which can
fail, modelling `Regex::new` / `RegexSet::new`), and the dispatch algorithm
`Router::handle`.
-/

namespace Reroute

/-- HTTP method, mirroring the `hyper::Method` values the builder's
convenience wrappers use. -/
inductive Method where
  | GET | POST | PUT | PATCH | DELETE | OPTIONS
deriving DecidableEq, Repr

/-- A request, exposing what `Router::handle` reads: the method and the
URI path; `body` stands for the rest of the request, passed through to
handlers untouched. -/
structure Request where
  method : Method
  path : List Char
  body : List Char
deriving DecidableEq, Repr

/-- A response: status code and body, as built via `Response::builder()`. -/
structure Response where
  status : Nat
  body : List Char
deriving DecidableEq, Repr

/-- `Captures<'r> = Option<SmallVec<[&'r str; 4]>>`: an optional sequence of
matched substrings. -/
abbrev Captures := Option (List (List Char))

/-- `RouteHandler`: a callable taking the request and the captures. -/
def RouteHandler := Request → Captures → Response

/-- An item of a regex character class `[...]`: a single char or a range. -/
inductive ClassItem where
  | single (c : Char)
  | range (lo hi : Char)
deriving DecidableEq, Repr

/-- Regex AST for the fragment of the `regex` crate's syntax that route
patterns use: empty, `\A`, `\z`, literal chars, `.`, `\d`, character
classes, concatenation, alternation (lowest precedence), `r*`
(and via it `r+`, `r?`), and numbered capture groups. -/
inductive Reg where
  | eps
  | bos
  | eos
  | char (c : Char)
  | anyc
  | digit
  | cls (neg : Bool) (items : List ClassItem)
  | cat (r1 r2 : Reg)
  | alt (r1 r2 : Reg)
  | star (r : Reg)
  | group (i : Nat) (r : Reg)
deriving DecidableEq, Repr, Inhabited

/-- Does character `a` belong to the class items? -/
def inClass (items : List ClassItem) (a : Char) : Bool :=
  items.any fun it =>
    match it with
    | .single c => a = c
    | .range lo hi => lo ≤ a ∧ a ≤ hi

/-- One way a regex can match a prefix of the input: the consumed prefix,
the remaining suffix, and the capture records `(group index, substring)`
in completion order (a later record for the same group supersedes an
earlier one, as in the regex crate's capture slots). -/
abbrev MRes := List Char × List Char × List (Nat × List Char)

/-- All ways `r` matches a prefix of `s`, in the regex crate's
leftmost-first priority order (alternation prefers the left branch,
repetition is greedy, and an iteration of `star` must consume input).
`atStart` records whether the current position is the start of the
haystack, which is what `\A` asserts.  `fuel` bounds the recursion; every
recursive call decrements it, and callers supply enough for the input. -/
def mruns (fuel : Nat) (r : Reg) (atStart : Bool) (s : List Char) : List MRes :=
  match fuel with
  | 0 => []
  | fuel + 1 =>
    match r with
    | .eps => [([], s, [])]
    | .bos => if atStart then [([], s, [])] else []
    | .eos => if s.isEmpty then [([], s, [])] else []
    | .char c =>
      match s with
      | [] => []
      | a :: s1 => if a = c then [([a], s1, [])] else []
    | .anyc =>
      match s with
      | [] => []
      | a :: s1 => [([a], s1, [])]
    | .digit =>
      match s with
      | [] => []
      | a :: s1 => if a.isDigit then [([a], s1, [])] else []
    | .cls neg items =>
      match s with
      | [] => []
      | a :: s1 => if inClass items a ≠ neg then [([a], s1, [])] else []
    | .cat r1 r2 =>
      (mruns fuel r1 atStart s).flatMap fun p =>
        (mruns fuel r2 (atStart && p.1.isEmpty) p.2.1).map fun q =>
          (p.1 ++ q.1, q.2.1, p.2.2 ++ q.2.2)
    | .alt r1 r2 => mruns fuel r1 atStart s ++ mruns fuel r2 atStart s
    | .star r1 =>
      (((mruns fuel r1 atStart s).filter fun p => !p.1.isEmpty).flatMap fun p =>
        (mruns fuel (.star r1) false p.2.1).map fun q =>
          (p.1 ++ q.1, q.2.1, p.2.2 ++ q.2.2))
      ++ [([], s, [])]
    | .group i r1 =>
      (mruns fuel r1 atStart s).map fun p => (p.1, p.2.1, p.2.2 ++ [(i, p.1)])

/-- Structural size of a regex, used to budget matcher fuel. -/
def regSize : Reg → Nat
  | .cat r1 r2 => regSize r1 + regSize r2 + 1
  | .alt r1 r2 => regSize r1 + regSize r2 + 1
  | .star r1 => regSize r1 + 1
  | .group _ r1 => regSize r1 + 1
  | _ => 1

/-- Fuel sufficient for `mruns` on regex `r` over input `s`. -/
def fuelFor (r : Reg) (s : List Char) : Nat :=
  (regSize r + 2) * (s.length + 2)

/-- Pick the highest-priority way the current position matches, falling
back to the continuation when the position has none. -/
def searchStep (next : Option MRes) : List MRes → Option MRes
  | res :: _ => some res
  | [] => next

/-- Search for the leftmost match of `r` starting at successive positions;
at each position take the highest-priority way `r` matches.  `atStart` is
true only at the original start of the haystack. -/
def searchFrom (r : Reg) : Bool → List Char → Option MRes
  | b, [] => searchStep none (mruns (fuelFor r []) r b [])
  | b, a :: s1 =>
    searchStep (searchFrom r false s1) (mruns (fuelFor r (a :: s1)) r b (a :: s1))

/-- `Regex::captures` / `Regex::is_match` semantics: the leftmost-first
match of `r` anywhere in `s`, if any. -/
def Reg.search (r : Reg) (s : List Char) : Option MRes :=
  searchFrom r true s

/-- Does `r` match somewhere in `s`?  This is also how the `RegexSet`
decides membership of each pattern in the matched set. -/
def Reg.isMatch (r : Reg) (s : List Char) : Bool :=
  (r.search s).isSome

/-- The largest group index occurring in `r`; the compiled pattern has
capture slots `0` (the whole match) through this number. -/
def maxGroup : Reg → Nat
  | .cat r1 r2 => max (maxGroup r1) (maxGroup r2)
  | .alt r1 r2 => max (maxGroup r1) (maxGroup r2)
  | .star r1 => maxGroup r1
  | .group i r1 => max i (maxGroup r1)
  | _ => 0

/-- The content of capture slot `i` after a match with records `ks`:
the latest record for group `i`, if the group participated. -/
def lookupCap (ks : List (Nat × List Char)) (i : Nat) : Option (List Char) :=
  (ks.reverse.find? fun p => p.1 = i).map fun p => p.2

/-- `get_captures` (src/lib.rs:180): run the single winning pattern
against the uri; on a match, iterate the capture slots in index order —
slot 0, the whole match, first — keep the participating ones and collect
their substrings. -/
def get_captures (pattern : Reg) (uri : List Char) : Captures :=
  match pattern.search uri with
  | none => none
  | some res =>
    some (res.1 :: (List.range' 1 (maxGroup pattern)).filterMap fun i =>
      lookupCap res.2.2 i)

/-- A pattern-compilation failure, as produced by the regex library from a
malformed pattern string. -/
inductive PErr where
  | unclosedClass
  | unmatchedParen
  | badEscape
  | badRepetition
deriving DecidableEq, Repr

/-- Metacharacters that an atom of the pattern syntax does not consume as a
literal. -/
def isMeta (c : Char) : Bool :=
  c = '(' || c = ')' || c = '|' || c = '*' || c = '+' || c = '?' ||
  c = '[' || c = ']' || c = '.' || c = '\\'

/-- Parse the body of a character class after `[` (and after an optional
leading `^`), up to the closing `]`; fails when the input ends first. -/
def parseClassItems (fuel : Nat) (s : List Char) :
    Except PErr (List ClassItem × List Char) :=
  match fuel with
  | 0 => .error .unclosedClass
  | fuel + 1 =>
    match s with
    | [] => .error .unclosedClass
    | ']' :: s1 => .ok ([], s1)
    | a :: '-' :: b :: s1 =>
      if b = ']' then
        match parseClassItems fuel (b :: s1) with
        | .ok (items, rest) => .ok (.single a :: .single '-' :: items, rest)
        | .error e => .error e
      else
        match parseClassItems fuel s1 with
        | .ok (items, rest) => .ok (.range a b :: items, rest)
        | .error e => .error e
    | a :: s1 =>
      match parseClassItems fuel s1 with
      | .ok (items, rest) => .ok (.single a :: items, rest)
      | .error e => .error e

/-- Combine a parsed sequence of atoms into a concatenation. -/
def catAll : List Reg → Reg
  | [] => .eps
  | [r] => r
  | r :: rs => .cat r (catAll rs)

/-- Parser state: remaining input and next capture-group number (the regex
library numbers groups 1, 2, ... by order of their opening parenthesis). -/
def parseEscape (c : Char) : Except PErr Reg :=
  if c = 'd' then .ok .digit
  else if c = 'A' then .ok .bos
  else if c = 'z' then .ok .eos
  else if isMeta c then .ok (.char c)
  else .error .badEscape

mutual

/-- Parse an alternation (lowest precedence): `cat ('|' alt)?`. -/
def parseAlt (fuel : Nat) (s : List Char) (g : Nat) :
    Except PErr (Reg × List Char × Nat) :=
  match fuel with
  | 0 => .error .unmatchedParen
  | fuel + 1 =>
    match parseCat fuel s g [] with
    | .error e => .error e
    | .ok (r1, s1, g1) =>
      match s1 with
      | '|' :: s2 =>
        match parseAlt fuel s2 g1 with
        | .error e => .error e
        | .ok (r2, s3, g2) => .ok (.alt r1 r2, s3, g2)
      | _ => .ok (r1, s1, g1)

/-- Parse a concatenation of repeated atoms, stopping at `|`, `)` or the
end of input; `acc` holds the atoms parsed so far, in order. -/
def parseCat (fuel : Nat) (s : List Char) (g : Nat) (acc : List Reg) :
    Except PErr (Reg × List Char × Nat) :=
  match fuel with
  | 0 => .error .unmatchedParen
  | fuel + 1 =>
    match s with
    | [] => .ok (catAll acc.reverse, [], g)
    | '|' :: _ => .ok (catAll acc.reverse, s, g)
    | ')' :: _ => .ok (catAll acc.reverse, s, g)
    | _ =>
      match parseAtom fuel s g with
      | .error e => .error e
      | .ok (a, s1, g1) =>
        match s1 with
        | '*' :: s2 => parseCat fuel s2 g1 (.star a :: acc)
        | '+' :: s2 => parseCat fuel s2 g1 (.cat a (.star a) :: acc)
        | '?' :: s2 => parseCat fuel s2 g1 (.alt a .eps :: acc)
        | _ => parseCat fuel s1 g1 (a :: acc)

/-- Parse one atom: a group, an escape, a class, `.`, or a literal. -/
def parseAtom (fuel : Nat) (s : List Char) (g : Nat) :
    Except PErr (Reg × List Char × Nat) :=
  match fuel with
  | 0 => .error .unmatchedParen
  | fuel + 1 =>
    match s with
    | [] => .error .badRepetition
    | '(' :: s1 =>
      match parseAlt fuel s1 (g + 1) with
      | .error e => .error e
      | .ok (r, s2, g1) =>
        match s2 with
        | ')' :: s3 => .ok (.group g r, s3, g1)
        | _ => .error .unmatchedParen
    | '\\' :: c :: s1 =>
      match parseEscape c with
      | .ok r => .ok (r, s1, g)
      | .error e => .error e
    | '\\' :: [] => .error .badEscape
    | '[' :: '^' :: s1 =>
      match parseClassItems (s1.length + 1) s1 with
      | .ok (items, rest) => .ok (.cls true items, rest, g)
      | .error e => .error e
    | '[' :: s1 =>
      match parseClassItems (s1.length + 1) s1 with
      | .ok (items, rest) => .ok (.cls false items, rest, g)
      | .error e => .error e
    | '.' :: s1 => .ok (.anyc, s1, g)
    | c :: s1 =>
      if isMeta c then .error .badRepetition else .ok (.char c, s1, g)

end

/-- `Regex::new` / each member of `RegexSet::new`: compile a pattern string
into a regex, or fail on a malformed pattern. -/
def parseRegex (s : List Char) : Except PErr Reg :=
  match parseAlt (4 * s.length + 8) s 1 with
  | .error e => .error e
  | .ok (r, [], _) => .ok r
  | .ok (_, _, _) => .error .unmatchedParen

/-- The error `finalize` returns.

Modelled from the spec: the crate's `error` module (src/error.rs) is not
among the sources; per the spec, `finalize` "fails with a
`PatternCompilationError` (signals which pattern/pattern-string was
invalid)", so the error carries the offending (anchored) pattern string
together with the underlying compilation failure. -/
structure Error where
  pattern : List Char
  cause : PErr
deriving DecidableEq, Repr

/-- The `Router` struct (src/lib.rs:21): the combined matcher's pattern
list (`routes: RegexSet`), the per-route compiled patterns used for
capture extraction, the `(method, handler)` list, and the fallback. -/
structure Router where
  routes : List Reg
  patterns : List Reg
  handlers : List (Method × RouteHandler)
  not_found : RouteHandler

/-- `RegexSet::matches`: the indices, in ascending order, of the set's
patterns that match the haystack. -/
def setMatches (routes : List Reg) (uri : List Char) : List Nat :=
  (List.range routes.length).filter fun i =>
    Reg.isMatch (routes.getD i .eps) uri

/-- The default handler pair used when indexing out of range; unreachable
when the index-alignment invariant holds. -/
def dummyHandler : Method × RouteHandler :=
  (Method.GET, fun _ _ => ⟨0, []⟩)

/-- The default 404 handler (src/lib.rs:164). -/
def default_not_found : RouteHandler :=
  fun _ _ => ⟨404, "Not Found".data⟩

/-- The fixed response when a URI matches a route but under the wrong
method (src/lib.rs:172). -/
def not_allowed : Response :=
  ⟨405, "Method Not Allowed".data⟩

/-- The `for index in matches` loop of `Router::handle` (src/lib.rs:40):
skip candidates whose method differs from the request's; on the first
method match, extract captures with that entry's compiled pattern and
invoke its handler; fall through to `not_allowed()`. -/
def handleLoop (r : Router) (req : Request) (uri : List Char) :
    List Nat → Response
  | [] => not_allowed
  | index :: rest =>
    let mh := r.handlers.getD index dummyHandler
    if mh.1 = req.method then
      mh.2 req (get_captures (r.patterns.getD index .eps) uri)
    else
      handleLoop r req uri rest

/-- `Router::handle` (src/lib.rs:31): match the path against the set; if
nothing matched, call the fallback with no captures; otherwise run the
candidate loop. -/
def Router.handle (r : Router) (req : Request) : Response :=
  let uri := req.path
  let ms := setMatches r.routes uri
  if ms.isEmpty then r.not_found req none
  else handleLoop r req uri ms

/-- The `RouterBuilder` struct (src/lib.rs:58): accumulated anchored
pattern strings, handlers, and the optional custom fallback. -/
structure RouterBuilder where
  routes : List (List Char)
  handlers : List (Method × RouteHandler)
  not_found : Option RouteHandler

/-- `RouterBuilder::new()`: no route handlers. -/
def RouterBuilder.new : RouterBuilder :=
  ⟨[], [], none⟩

/-- `RouterBuilder::route` (src/lib.rs:73): anchor the pattern string by
concatenating `\A`, the route, and `\z`, and append it with its
`(verb, handler)` pair. -/
def RouterBuilder.route (b : RouterBuilder) (verb : Method)
    (route : List Char) (handler : RouteHandler) : RouterBuilder :=
  { b with
    routes := b.routes ++ [['\\', 'A'] ++ route ++ ['\\', 'z']]
    handlers := b.handlers ++ [(verb, handler)] }

/-- Convenience method to install a GET handler (src/lib.rs:104). -/
def RouterBuilder.get (b : RouterBuilder) (route : List Char)
    (handler : RouteHandler) : RouterBuilder :=
  b.route Method.GET route handler

/-- Convenience method to install a POST handler (src/lib.rs:112). -/
def RouterBuilder.post (b : RouterBuilder) (route : List Char)
    (handler : RouteHandler) : RouterBuilder :=
  b.route Method.POST route handler

/-- `RouterBuilder::not_found` (src/lib.rs:154): install a custom
fallback handler. -/
def RouterBuilder.set_not_found (b : RouterBuilder)
    (handler : RouteHandler) : RouterBuilder :=
  { b with not_found := some handler }

/-- Compile a list of pattern strings in order, failing on the first
malformed one with an error naming it; `RegexSet::new` and the
`Regex::new` traversal of `finalize` both follow this scheme. -/
def compileAll : List (List Char) → Except Error (List Reg)
  | [] => .ok []
  | p :: ps =>
    match parseRegex p with
    | .error e => .error ⟨p, e⟩
    | .ok r =>
      match compileAll ps with
      | .error e => .error e
      | .ok rs => .ok (r :: rs)

/-- `RouterBuilder::finalize` (src/lib.rs:88): build the `RegexSet`, the
per-route compiled patterns, and the router, propagating the first
compilation error; the default fallback is installed when none was set. -/
def RouterBuilder.finalize (b : RouterBuilder) : Except Error Router :=
  match compileAll b.routes with
  | .error e => .error e
  | .ok rs =>
    match compileAll b.routes with
    | .error e => .error e
    | .ok ps =>
      .ok { routes := rs
            patterns := ps
            handlers := b.handlers
            not_found := b.not_found.getD default_not_found }

/-- A syntactic test that a regex can only match at the start of the
haystack: its leftmost atom is the assertion `\A`. -/
def forcesStart : Reg → Bool
  | .bos => true
  | .cat r1 _ => forcesStart r1
  | .alt r1 r2 => forcesStart r1 && forcesStart r2
  | .group _ r1 => forcesStart r1
  | _ => false

/-- A syntactic test that a regex can only match up to the end of the
haystack: its rightmost atom is the assertion `\z`. -/
def forcesEnd : Reg → Bool
  | .eos => true
  | .cat _ r2 => forcesEnd r2
  | .alt r1 r2 => forcesEnd r1 && forcesEnd r2
  | .group _ r1 => forcesEnd r1
  | _ => false

/-- The three dispatch outcomes the spec names: fallback (not found),
built-in method-not-allowed, or the selected route index with the
captures extracted for it. -/
inductive Outcome where
  | notFound
  | notAllowed
  | selected (index : Nat) (caps : Option (List (List Char)))

/-- Follows the spec: the loop part of outcome selection, over the
matched candidate indices in ascending registration order. -/
def selLoop (r : Router) (m : Method) (uri : List Char) :
    List Nat → Outcome
  | [] => .notAllowed
  | index :: rest =>
    if (r.handlers.getD index dummyHandler).1 = m then
      .selected index (get_captures (r.patterns.getD index .eps) uri)
    else
      selLoop r m uri rest

/-- Follows the spec: which outcome dispatch selects, as a function of
the router, the request method and the request path alone. -/
def dispatchSelection (r : Router) (m : Method) (uri : List Char) : Outcome :=
  let ms := setMatches r.routes uri
  if ms.isEmpty then .notFound
  else selLoop r m uri ms

/-- Interpret a selected outcome as the response `handle` produces for a
given request: fallback response, fixed not-allowed response, or the
selected entry's handler applied to the request and the captures. -/
def runOutcome (r : Router) (req : Request) : Outcome → Response
  | .notFound => r.not_found req none
  | .notAllowed => not_allowed
  | .selected index caps => (r.handlers.getD index dummyHandler).2 req caps

/-- A builder accumulates pattern strings and handler pairs in lockstep. -/
def RouterBuilder.wf (b : RouterBuilder) : Prop :=
  b.routes.length = b.handlers.length

/-! Concrete fixtures: handlers, builders and routers used to instantiate
the theorems, mirroring the examples named in the spec. -/

/-- A handler that reveals its captures argument in the response body. -/
def hEcho : RouteHandler := fun _ caps =>
  match caps with
  | none => ⟨200, "none".data⟩
  | some l => ⟨200, l.flatMap fun c => c ++ [',']⟩

/-- A constant handler, distinguishable from `hTwo`. -/
def hOne : RouteHandler := fun _ _ => ⟨201, "one".data⟩

/-- A constant handler, distinguishable from `hOne`. -/
def hTwo : RouteHandler := fun _ _ => ⟨202, "two".data⟩

/-- The router a successful finalize produces. -/
def routerOf (b : RouterBuilder) : Router :=
  b.finalize.toOption.getD ⟨[], [], [], default_not_found⟩

/-- Builder with the two-capture route of the spec's example. -/
def bUsers : RouterBuilder :=
  RouterBuilder.new.get "/users/(\\d+)/posts/(\\d+)".data hEcho

/-- Its finalized router. -/
def rUsers : Router := routerOf bUsers

/-- The spec's example request for it. -/
def reqUsers : Request := ⟨Method.GET, "/users/42/posts/7".data, []⟩

/-- Builder with the spec's precedence example: `/a` then `/(.)`, both GET. -/
def bTwo : RouterBuilder :=
  (RouterBuilder.new.get "/a".data hOne).get "/(.)".data hTwo

/-- Its finalized router. -/
def rTwo : Router := routerOf bTwo

/-- A request both routes of `bTwo` match. -/
def reqA : Request := ⟨Method.GET, "/a".data, []⟩

/-- Builder with a top-level alternation route. -/
def bAlt : RouterBuilder := RouterBuilder.new.get "a|b".data hEcho

/-- Its finalized router. -/
def rAlt : Router := routerOf bAlt

/-- A request whose path ends in `b` but is not `a` or `b`. -/
def reqZb : Request := ⟨Method.GET, "zb".data, []⟩

/-- Builder with a literal route containing no capture group. -/
def bAbout : RouterBuilder := RouterBuilder.new.get "/about".data hEcho

/-- Its finalized router. -/
def rAbout : Router := routerOf bAbout

/-- The exactly-matching request for it. -/
def reqAbout : Request := ⟨Method.GET, "/about".data, []⟩

/-- Builder with nested alternative groups, so that one group does not
participate in a match. -/
def bSkip : RouterBuilder := RouterBuilder.new.get "/((a)|(b))".data hEcho

/-- Its finalized router. -/
def rSkip : Router := routerOf bSkip

/-- A request taking the second alternative, skipping the group of the
first. -/
def reqSkipB : Request := ⟨Method.GET, "/b".data, []⟩

/-- Builder holding the malformed pattern of the crate's own test:
an unbalanced character class. -/
def bBad : RouterBuilder := RouterBuilder.new.get "/[".data hOne

/-- The compiled anchored items pattern of the spec's anchoring example. -/
def regItems : Reg :=
  (parseRegex "\\A/items/(\\d+)\\z".data).toOption.getD .eps

/-! Supporting lemmas about the matcher. -/

/-- Every way a regex matches splits the input into the consumed prefix
and the remaining suffix. -/
theorem mruns_sound :
    ∀ (fuel : Nat) (r : Reg) (b : Bool) (s : List Char) (res : MRes),
      res ∈ mruns fuel r b s → res.1 ++ res.2.1 = s := by
  intro fuel
  induction fuel with
  | zero => intro r b s res h; simp [mruns] at h
  | succ n ih =>
    intro r b s res h
    cases r with
    | eps =>
      simp only [mruns, List.mem_singleton] at h
      subst h; rfl
    | bos =>
      simp only [mruns] at h
      split at h
      · simp only [List.mem_singleton] at h; subst h; rfl
      · simp at h
    | eos =>
      simp only [mruns] at h
      split at h
      · simp only [List.mem_singleton] at h; subst h; rfl
      · simp at h
    | char c =>
      cases s with
      | nil => simp only [mruns, List.not_mem_nil] at h
      | cons a s1 =>
        simp only [mruns] at h
        split at h
        · simp only [List.mem_singleton] at h; subst h; rfl
        · simp at h
    | anyc =>
      cases s with
      | nil => simp only [mruns, List.not_mem_nil] at h
      | cons a s1 =>
        simp only [mruns, List.mem_singleton] at h
        subst h; rfl
    | digit =>
      cases s with
      | nil => simp only [mruns, List.not_mem_nil] at h
      | cons a s1 =>
        simp only [mruns] at h
        split at h
        · simp only [List.mem_singleton] at h; subst h; rfl
        · simp at h
    | cls neg items =>
      cases s with
      | nil => simp only [mruns, List.not_mem_nil] at h
      | cons a s1 =>
        simp only [mruns] at h
        split at h
        · simp only [List.mem_singleton] at h; subst h; rfl
        · simp at h
    | cat r1 r2 =>
      simp only [mruns, List.mem_flatMap, List.mem_map] at h
      obtain ⟨p, hp, q, hq, hres⟩ := h
      subst hres
      have h2 := ih r2 (b && p.1.isEmpty) p.2.1 q hq
      have h1 := ih r1 b s p hp
      simp only [List.append_assoc, h2, h1]
    | alt r1 r2 =>
      simp only [mruns, List.mem_append] at h
      rcases h with h | h
      · exact ih r1 b s res h
      · exact ih r2 b s res h
    | star r1 =>
      simp only [mruns, List.mem_append, List.mem_flatMap, List.mem_map,
        List.mem_filter, List.mem_singleton] at h
      rcases h with ⟨p, ⟨hp, _⟩, q, hq, hres⟩ | h
      · subst hres
        have h2 := ih (.star r1) false p.2.1 q hq
        have h1 := ih r1 b s p hp
        simp only [List.append_assoc, h2, h1]
      · subst h; rfl
    | group i r1 =>
      simp only [mruns, List.mem_map] at h
      obtain ⟨p, hp, hres⟩ := h
      subst hres
      exact ih r1 b s p hp

/-- A regex whose leftmost atom is `\A` has no match away from the start
of the haystack. -/
theorem mruns_not_start :
    ∀ (fuel : Nat) (r : Reg) (s : List Char), forcesStart r = true →
      mruns fuel r false s = [] := by
  intro fuel
  induction fuel with
  | zero => intro r s _; simp [mruns]
  | succ n ih =>
    intro r s h
    cases r with
    | bos => simp [mruns]
    | cat r1 r2 =>
      simp only [forcesStart] at h
      simp [mruns, ih r1 s h]
    | alt r1 r2 =>
      simp only [forcesStart, Bool.and_eq_true] at h
      simp [mruns, ih r1 s h.1, ih r2 s h.2]
    | group i r1 =>
      simp only [forcesStart] at h
      simp [mruns, ih r1 s h]
    | eps => simp [forcesStart] at h
    | eos => simp [forcesStart] at h
    | char c => simp [forcesStart] at h
    | anyc => simp [forcesStart] at h
    | digit => simp [forcesStart] at h
    | cls neg items => simp [forcesStart] at h
    | star r1 => simp [forcesStart] at h

/-- A regex whose rightmost atom is `\z` consumes the input to its end in
every match. -/
theorem mruns_forces_end :
    ∀ (fuel : Nat) (r : Reg) (b : Bool) (s : List Char) (res : MRes),
      forcesEnd r = true → res ∈ mruns fuel r b s → res.2.1 = [] := by
  intro fuel
  induction fuel with
  | zero => intro r b s res _ h; simp [mruns] at h
  | succ n ih =>
    intro r b s res he h
    cases r with
    | eos =>
      simp only [mruns] at h
      split at h
      · next hemp =>
          simp only [List.mem_singleton] at h
          subst h
          exact List.isEmpty_iff.mp hemp
      · simp at h
    | cat r1 r2 =>
      simp only [forcesEnd] at he
      simp only [mruns, List.mem_flatMap, List.mem_map] at h
      obtain ⟨p, hp, q, hq, hres⟩ := h
      subst hres
      exact ih r2 (b && p.1.isEmpty) p.2.1 q he hq
    | alt r1 r2 =>
      simp only [forcesEnd, Bool.and_eq_true] at he
      simp only [mruns, List.mem_append] at h
      rcases h with h | h
      · exact ih r1 b s res he.1 h
      · exact ih r2 b s res he.2 h
    | group i r1 =>
      simp only [forcesEnd] at he
      simp only [mruns, List.mem_map] at h
      obtain ⟨p, hp, hres⟩ := h
      subst hres
      exact ih r1 b s p he hp
    | eps => simp [forcesEnd] at he
    | bos => simp [forcesEnd] at he
    | char c => simp [forcesEnd] at he
    | anyc => simp [forcesEnd] at he
    | digit => simp [forcesEnd] at he
    | cls neg items => simp [forcesEnd] at he
    | star r1 => simp [forcesEnd] at he

/-- Away from the start of the haystack, the search for a start-anchored
regex finds nothing. -/
theorem searchFrom_not_start (r : Reg) (hs : forcesStart r = true) :
    ∀ s : List Char, searchFrom r false s = none := by
  intro s
  induction s with
  | nil => simp [searchFrom, searchStep, mruns_not_start _ _ _ hs]
  | cons a s1 ih => simp [searchFrom, searchStep, mruns_not_start _ _ _ hs, ih]

/-- A successful search found its result among the runs of the matcher at
some position: the suffix of the haystack it was launched on, starting at
the haystack itself. -/
theorem searchFrom_elim (r : Reg) :
    ∀ (s : List Char) (b : Bool) (res : MRes), searchFrom r b s = some res →
      (res ∈ mruns (fuelFor r s) r b s) ∨
      (∃ a s1, s = a :: s1 ∧ searchFrom r false s1 = some res) := by
  intro s
  cases s with
  | nil =>
    intro b res h
    cases hm : mruns (fuelFor r []) r b [] with
    | nil => rw [searchFrom, hm] at h; simp [searchStep] at h
    | cons x tl =>
      rw [searchFrom, hm] at h
      simp only [searchStep, Option.some.injEq] at h
      subst h
      exact Or.inl (by simp [hm])
  | cons a s1 =>
    intro b res h
    cases hm : mruns (fuelFor r (a :: s1)) r b (a :: s1) with
    | nil =>
      rw [searchFrom, hm] at h
      simp only [searchStep] at h
      exact Or.inr ⟨a, s1, rfl, h⟩
    | cons x tl =>
      rw [searchFrom, hm] at h
      simp only [searchStep, Option.some.injEq] at h
      subst h
      exact Or.inl (by simp [hm])

/-- A successful search of a both-ends-anchored regex matched the entire
haystack: the whole-match substring is the haystack itself. -/
theorem search_anchored (r : Reg) (s : List Char) (res : MRes)
    (hs : forcesStart r = true) (he : forcesEnd r = true)
    (h : r.search s = some res) : res.1 = s ∧ res.2.1 = [] := by
  unfold Reg.search at h
  rcases searchFrom_elim r s true res h with hmem | ⟨a, s1, _, hrec⟩
  · have hrest := mruns_forces_end _ _ _ _ _ he hmem
    have hsound := mruns_sound _ _ _ _ _ hmem
    rw [hrest] at hsound
    simp only [List.append_nil] at hsound
    exact ⟨hsound, hrest⟩
  · rw [searchFrom_not_start r hs s1] at hrec
    exact absurd hrec (by simp)

/-- A successful search matched a contiguous substring of the haystack. -/
theorem search_substring (r : Reg) (s : List Char) (res : MRes)
    (h : r.search s = some res) :
    ∃ pre post, s = pre ++ res.1 ++ post := by
  unfold Reg.search at h
  suffices hgen : ∀ (s1 : List Char) (b : Bool), searchFrom r b s1 = some res →
      ∃ pre post, s1 = pre ++ res.1 ++ post by
    exact hgen s true h
  intro s1
  induction s1 with
  | nil =>
    intro b hsf
    rcases searchFrom_elim r [] b res hsf with hmem | ⟨a, s2, hcon, _⟩
    · have hsound := mruns_sound _ _ _ _ _ hmem
      exact ⟨[], res.2.1, by simp [hsound]⟩
    · exact absurd hcon (by simp)
  | cons a s2 ih =>
    intro b hsf
    rcases searchFrom_elim r (a :: s2) b res hsf with hmem | ⟨x, s3, hcon, hrec⟩
    · have hsound := mruns_sound _ _ _ _ _ hmem
      exact ⟨[], res.2.1, by simp [hsound]⟩
    · obtain ⟨hx, hs3⟩ := List.cons.inj hcon
      subst hx; subst hs3
      obtain ⟨pre, post, hdecomp⟩ := ih false hrec
      exact ⟨a :: pre, post, by simp [hdecomp]⟩

/-- Membership in the matched set: the index is in range and its pattern
matches the uri. -/
theorem mem_setMatches (routes : List Reg) (uri : List Char) (i : Nat) :
    i ∈ setMatches routes uri ↔
      i < routes.length ∧ Reg.isMatch (routes.getD i .eps) uri = true := by
  simp [setMatches, List.mem_filter, List.mem_range]

/-- The matched set is strictly ascending: candidates are iterated in
registration order. -/
theorem setMatches_sorted (routes : List Reg) (uri : List Char) :
    (setMatches routes uri).Pairwise (· < ·) :=
  (List.pairwise_lt_range _).sublist (List.filter_sublist _)

/-- When no candidate has the request method, the loop falls through to
the fixed method-not-allowed response. -/
theorem handleLoop_all_skip (r : Router) (req : Request) (uri : List Char) :
    ∀ l : List Nat,
      (∀ j ∈ l, (r.handlers.getD j dummyHandler).1 ≠ req.method) →
      handleLoop r req uri l = not_allowed := by
  intro l
  induction l with
  | nil => intro _; rfl
  | cons a tl ih =>
    intro hall
    have ha := hall a (List.mem_cons_self _ _)
    simp only [handleLoop, if_neg ha]
    exact ih fun j hj => hall j (List.mem_cons_of_mem _ hj)

/-- On a strictly ascending candidate list, the loop stops at the first
index whose method equals the request method, invoking its handler on the
captures of its own compiled pattern. -/
theorem handleLoop_first (r : Router) (req : Request) (uri : List Char) :
    ∀ (l : List Nat) (i : Nat), l.Pairwise (· < ·) → i ∈ l →
      (∀ j ∈ l, j < i → (r.handlers.getD j dummyHandler).1 ≠ req.method) →
      (r.handlers.getD i dummyHandler).1 = req.method →
      handleLoop r req uri l =
        (r.handlers.getD i dummyHandler).2 req
          (get_captures (r.patterns.getD i .eps) uri) := by
  intro l
  induction l with
  | nil => intro i _ hi; exact absurd hi (List.not_mem_nil i)
  | cons a tl ih =>
    intro i hsort hi hbefore hm
    by_cases hai : a = i
    · subst hai
      simp only [handleLoop, if_pos hm]
    · have hitl : i ∈ tl := by
        rcases List.mem_cons.mp hi with h | h
        · exact absurd h.symm hai
        · exact h
      have hlt : a < i := (List.pairwise_cons.mp hsort).1 i hitl
      have ha : (r.handlers.getD a dummyHandler).1 ≠ req.method :=
        hbefore a (List.mem_cons_self _ _) hlt
      simp only [handleLoop, if_neg ha]
      exact ih i (List.pairwise_cons.mp hsort).2 hitl
        (fun j hj hji => hbefore j (List.mem_cons_of_mem _ hj) hji) hm

/-- Compilation preserves the number of patterns. -/
theorem compileAll_length :
    ∀ (ps : List (List Char)) (rs : List Reg), compileAll ps = .ok rs →
      rs.length = ps.length := by
  intro ps
  induction ps with
  | nil =>
    intro rs h
    simp only [compileAll, Except.ok.injEq] at h
    subst h; rfl
  | cons p ps1 ih =>
    intro rs h
    simp only [compileAll] at h
    cases hp : parseRegex p with
    | error e => rw [hp] at h; exact absurd h (by simp)
    | ok r =>
      rw [hp] at h
      cases hc : compileAll ps1 with
      | error e => rw [hc] at h; exact absurd h (by simp)
      | ok rs1 =>
        rw [hc] at h
        simp only [Except.ok.injEq] at h
        subst h
        simp [ih rs1 hc]

/-- Compilation is pointwise: the i-th compiled regex comes from the i-th
accumulated pattern string. -/
theorem compileAll_get :
    ∀ (ps : List (List Char)) (rs : List Reg), compileAll ps = .ok rs →
      ∀ i, i < ps.length →
        parseRegex (ps.getD i []) = .ok (rs.getD i .eps) := by
  intro ps
  induction ps with
  | nil => intro rs _ i hi; exact absurd hi (by simp)
  | cons p ps1 ih =>
    intro rs h i hi
    simp only [compileAll] at h
    cases hp : parseRegex p with
    | error e => rw [hp] at h; exact absurd h (by simp)
    | ok r =>
      rw [hp] at h
      cases hc : compileAll ps1 with
      | error e => rw [hc] at h; exact absurd h (by simp)
      | ok rs1 =>
        rw [hc] at h
        simp only [Except.ok.injEq] at h
        subst h
        cases i with
        | zero => simpa using hp
        | succ i1 =>
          simp only [List.getD_cons_succ]
          exact ih rs1 hc i1 (by simpa using hi)

/-- If every accumulated pattern compiles, the whole list compiles. -/
theorem compileAll_ok_of_all :
    ∀ ps : List (List Char), (∀ p ∈ ps, (parseRegex p).isOk = true) →
      ∃ rs, compileAll ps = .ok rs := by
  intro ps
  induction ps with
  | nil => intro _; exact ⟨[], rfl⟩
  | cons p ps1 ih =>
    intro hall
    have hp := hall p (List.mem_cons_self _ _)
    cases hpe : parseRegex p with
    | error e => rw [hpe] at hp; simp [Except.isOk, Except.toBool] at hp
    | ok r =>
      obtain ⟨rs1, hc⟩ := ih fun q hq => hall q (List.mem_cons_of_mem _ hq)
      exact ⟨r :: rs1, by simp [compileAll, hpe, hc]⟩

/-- A compilation error names one of the accumulated pattern strings, and
that pattern indeed fails to compile with the reported cause. -/
theorem compileAll_error :
    ∀ (ps : List (List Char)) (e : Error), compileAll ps = .error e →
      e.pattern ∈ ps ∧ parseRegex e.pattern = .error e.cause := by
  intro ps
  induction ps with
  | nil => intro e h; exact absurd h (by simp [compileAll])
  | cons p ps1 ih =>
    intro e h
    simp only [compileAll] at h
    cases hp : parseRegex p with
    | error pe =>
      rw [hp] at h
      simp only [Except.error.injEq] at h
      subst h
      exact ⟨List.mem_cons_self _ _, hp⟩
    | ok r =>
      rw [hp] at h
      cases hc : compileAll ps1 with
      | error e1 =>
        rw [hc] at h
        simp only [Except.error.injEq] at h
        subst h
        obtain ⟨hmem, hparse⟩ := ih _ hc
        exact ⟨List.mem_cons_of_mem _ hmem, hparse⟩
      | ok rs1 => rw [hc] at h; exact absurd h (by simp)

/-- If the whole list compiles, so does each accumulated pattern. -/
theorem compileAll_all_ok :
    ∀ (ps : List (List Char)) (rs : List Reg), compileAll ps = .ok rs →
      ∀ p ∈ ps, (parseRegex p).isOk = true := by
  intro ps
  induction ps with
  | nil => intro rs _ p hp; exact absurd hp (List.not_mem_nil p)
  | cons p ps1 ih =>
    intro rs h q hq
    simp only [compileAll] at h
    cases hp : parseRegex p with
    | error e => rw [hp] at h; exact absurd h (by simp)
    | ok r =>
      rw [hp] at h
      cases hc : compileAll ps1 with
      | error e => rw [hc] at h; exact absurd h (by simp)
      | ok rs1 =>
        rcases List.mem_cons.mp hq with hq | hq
        · subst hq; simp [hp, Except.isOk, Except.toBool]
        · exact ih rs1 hc q hq

/-- The candidate loop computes exactly the interpretation of the
selection loop. -/
theorem handleLoop_eq_selLoop (r : Router) (req : Request) (uri : List Char) :
    ∀ l : List Nat,
      handleLoop r req uri l = runOutcome r req (selLoop r req.method uri l) := by
  intro l
  induction l with
  | nil => rfl
  | cons a tl ih =>
    by_cases hm : (r.handlers.getD a dummyHandler).1 = req.method
    · simp only [handleLoop, selLoop, if_pos hm, runOutcome]
    · simp only [handleLoop, selLoop, if_neg hm, ih]

/-- `handle` factors through the outcome selection: the response is the
interpretation, at the request, of an outcome computed from the method
and the path alone. -/
theorem handle_eq_runOutcome (r : Router) (req : Request) :
    r.handle req = runOutcome r req (dispatchSelection r req.method req.path) := by
  unfold Router.handle dispatchSelection
  by_cases hempty : (setMatches r.routes req.path).isEmpty
  · simp only [hempty, if_pos, reduceIte]; rfl
  · simp only [hempty, Bool.false_eq_true, if_neg, reduceIte]
    exact handleLoop_eq_selLoop r req req.path _

/-- The empty builder is well formed. -/
theorem RouterBuilder.new_wf : RouterBuilder.new.wf := rfl

/-- Registering a route preserves lockstep accumulation. -/
theorem RouterBuilder.route_wf (b : RouterBuilder) (verb : Method)
    (p : List Char) (h : RouteHandler) (hwf : b.wf) :
    (b.route verb p h).wf := by
  unfold RouterBuilder.wf at hwf ⊢
  simp [RouterBuilder.route, hwf]

/-! Helper lemmas shared by the claim theorems. -/

/-- What a successful finalize put into each field of the router. -/
theorem finalize_fields (b : RouterBuilder) (r : Router)
    (hfin : b.finalize = .ok r) :
    compileAll b.routes = .ok r.routes ∧ r.patterns = r.routes ∧
    r.handlers = b.handlers ∧
    r.not_found = b.not_found.getD default_not_found := by
  unfold RouterBuilder.finalize at hfin
  cases hc : compileAll b.routes with
  | error e => rw [hc] at hfin; exact absurd hfin (by simp)
  | ok rs =>
    rw [hc] at hfin
    simp only [Except.ok.injEq] at hfin
    subst hfin
    exact ⟨rfl, rfl, rfl, rfl⟩

/-- The core dispatch fact: when `i` is a matched candidate with the
request method and every earlier matched candidate has a different
method, `handle` returns the handler of entry `i` applied to the request
and the captures of pattern `i`. -/
theorem handle_selects_aux (r : Router) (req : Request) (i : Nat)
    (hi : i ∈ setMatches r.routes req.path)
    (hm : (r.handlers.getD i dummyHandler).1 = req.method)
    (hfirst : ∀ j ∈ setMatches r.routes req.path, j < i →
      (r.handlers.getD j dummyHandler).1 ≠ req.method) :
    r.handle req =
      (r.handlers.getD i dummyHandler).2 req
        (get_captures (r.patterns.getD i .eps) req.path) := by
  unfold Router.handle
  have hne : (setMatches r.routes req.path).isEmpty = false := by
    cases hms : setMatches r.routes req.path with
    | nil => rw [hms] at hi; exact absurd hi (List.not_mem_nil i)
    | cons x tl => simp
  simp only [hne, Bool.false_eq_true, reduceIte]
  exact handleLoop_first r req req.path _ i (setMatches_sorted _ _) hi hfirst hm

/-- A matched candidate of a finalized router has a successful search on
its own compiled pattern: the two-phase design re-runs it for captures. -/
theorem matched_search_some (b : RouterBuilder) (r : Router) (uri : List Char)
    (i : Nat) (hfin : b.finalize = .ok r) (hi : i ∈ setMatches r.routes uri) :
    ∃ res, (r.patterns.getD i .eps).search uri = some res := by
  obtain ⟨-, hpr, -, -⟩ := finalize_fields b r hfin
  rw [hpr]
  have hmm := ((mem_setMatches _ _ _).mp hi).2
  unfold Reg.isMatch at hmm
  exact Option.isSome_iff_exists.mp hmm

/-- Extracting captures after a successful search yields slot 0 — the
whole match — followed by the participating capture slots in index
order. -/
theorem get_captures_eq_of_search (pat : Reg) (uri : List Char) (res : MRes)
    (h : pat.search uri = some res) :
    get_captures pat uri =
      some (res.1 :: (List.range' 1 (maxGroup pat)).filterMap fun g =>
        lookupCap res.2.2 g) := by
  unfold get_captures
  rw [h]

/-! The claims. -/

/-- C1: for a finalized Router and a request whose path is matched by at
least one registered pattern, where at least one matching entry has the
request method, handle invokes the handler of the first such entry in
ascending registration order (the conclusion holds for every choice of
the other entries' handler values, so no other candidate's handler is
invoked). -/
theorem handle_first_registered_method_match
    (b : RouterBuilder) (r : Router) (req : Request) (i : Nat)
    (_hfin : b.finalize = .ok r)
    (hi : i ∈ setMatches r.routes req.path)
    (hm : (r.handlers.getD i dummyHandler).1 = req.method)
    (hfirst : ∀ j ∈ setMatches r.routes req.path, j < i →
      (r.handlers.getD j dummyHandler).1 ≠ req.method) :
    r.handle req =
      (r.handlers.getD i dummyHandler).2 req
        (get_captures (r.patterns.getD i .eps) req.path) :=
  handle_selects_aux r req i hi hm hfirst

/-- C1 witness: the precedence example — `/a` then `/(.)`, both GET, both
matching path `/a`; dispatch picks the first-registered entry (index 0),
although index 1 is also in the matched set. -/
theorem handle_first_registered_method_match_witness :
    bTwo.finalize = .ok rTwo ∧
    0 ∈ setMatches rTwo.routes reqA.path ∧
    1 ∈ setMatches rTwo.routes reqA.path ∧
    (rTwo.handlers.getD 0 dummyHandler).1 = reqA.method ∧
    rTwo.handle reqA =
      (rTwo.handlers.getD 0 dummyHandler).2 reqA
        (get_captures (rTwo.patterns.getD 0 .eps) reqA.path) ∧
    rTwo.handle reqA = ⟨201, "one".data⟩ :=
  ⟨rfl, by decide, by decide, by decide,
    handle_first_registered_method_match bTwo rTwo reqA 0 rfl (by decide)
      (by decide) (by decide),
    by decide⟩

/-- C2: evaluation at the failing input.  The anchoring contract holds
for the `/items/(\d+)` example, but a route with a top-level alternation
escapes the concatenated anchors: `a|b` is stored as `\Aa|b\z`, whose
right branch matches the proper suffix `b` of the path `zb`, so the
stored pattern matches a path it does not match entirely and `handle`
dispatches to the route's handler. -/
theorem anchoring_escape_top_level_alternation :
    Reg.isMatch regItems "/items/42".data = true ∧
    Reg.isMatch regItems "/items/42/extra".data = false ∧
    bAlt.finalize = .ok rAlt ∧
    Reg.isMatch (rAlt.routes.getD 0 .eps) "zb".data = true ∧
    ((rAlt.routes.getD 0 .eps).search "zb".data).map (fun res => res.1) =
      some "b".data ∧
    "b".data ≠ "zb".data ∧
    rAlt.handle reqZb = hEcho reqZb (some ["b".data]) :=
  ⟨by decide, by decide, rfl, by decide, by decide, by decide, by decide⟩

/-- C3 counterexample: for the registered route
`GET /users/(\d+)/posts/(\d+)` and the request `GET /users/42/posts/7`,
the handler is invoked with captures that also contain slot 0 — the whole
matched path — before `42` and `7`, so the captures are not the claimed
two-element sequence. -/
theorem users_captures_counterexample :
    bUsers.finalize = .ok rUsers ∧
    rUsers.handle reqUsers =
      hEcho reqUsers (some ["/users/42/posts/7".data, "42".data, "7".data]) ∧
    rUsers.handle reqUsers ≠ hEcho reqUsers (some ["42".data, "7".data]) :=
  ⟨rfl, by decide, by decide⟩

/-- C3 amended: for the route registered as `GET /users/(\d+)/posts/(\d+)`,
the request `GET /users/42/posts/7` is dispatched to that route's handler
with captures equal to the ordered sequence
`["/users/42/posts/7", "42", "7"]` — slot 0, the whole match, first, then
the two group captures in order (the capture-revealing handler exposes
them in the response body). -/
theorem users_captures_amended :
    bUsers.finalize = .ok rUsers ∧
    rUsers.handle reqUsers =
      hEcho reqUsers (some ["/users/42/posts/7".data, "42".data, "7".data]) ∧
    get_captures (rUsers.patterns.getD 0 .eps) reqUsers.path =
      some ["/users/42/posts/7".data, "42".data, "7".data] ∧
    (rUsers.handle reqUsers).body = "/users/42/posts/7,42,7,".data :=
  ⟨rfl, by decide, by decide, by decide⟩

/-- C4 counterexample: a winning pattern with zero capture groups does
not yield an empty or absent captures value — the handler receives the
one-element sequence holding slot 0, the whole matched path. -/
theorem zero_group_captures_counterexample :
    bAbout.finalize = .ok rAbout ∧
    rAbout.handle reqAbout = hEcho reqAbout (some ["/about".data]) ∧
    rAbout.handle reqAbout ≠ hEcho reqAbout none ∧
    rAbout.handle reqAbout ≠ hEcho reqAbout (some []) ∧
    get_captures (rAbout.patterns.getD 0 .eps) reqAbout.path =
      some ["/about".data] :=
  ⟨rfl, by decide, by decide, by decide, by decide⟩

/-- C4 amended: for every winning pattern the handler receives `some` of:
slot 0 — the substring matched by the whole pattern — followed by the
substrings of exactly the capture slots that participated in the match,
in slot (left-to-right definition) order, non-participating slots skipped
rather than padded; when the winning pattern has zero capture groups the
handler receives the one-element sequence of the whole match, never an
empty or absent value. -/
theorem dispatch_captures_shape
    (b : RouterBuilder) (r : Router) (req : Request) (i : Nat)
    (hfin : b.finalize = .ok r)
    (hi : i ∈ setMatches r.routes req.path)
    (hm : (r.handlers.getD i dummyHandler).1 = req.method)
    (hfirst : ∀ j ∈ setMatches r.routes req.path, j < i →
      (r.handlers.getD j dummyHandler).1 ≠ req.method) :
    ∃ res : MRes,
      (r.patterns.getD i .eps).search req.path = some res ∧
      r.handle req =
        (r.handlers.getD i dummyHandler).2 req
          (some (res.1 ::
            (List.range' 1 (maxGroup (r.patterns.getD i .eps))).filterMap
              fun g => lookupCap res.2.2 g)) ∧
      (maxGroup (r.patterns.getD i .eps) = 0 →
        r.handle req =
          (r.handlers.getD i dummyHandler).2 req (some [res.1])) := by
  obtain ⟨res, hres⟩ := matched_search_some b r req.path i hfin hi
  refine ⟨res, hres, ?_, ?_⟩
  · rw [handle_selects_aux r req i hi hm hfirst,
      get_captures_eq_of_search _ _ _ hres]
  · intro hzero
    rw [handle_selects_aux r req i hi hm hfirst,
      get_captures_eq_of_search _ _ _ hres, hzero]
    rfl

/-- C4 witness: the nested-alternative route `/((a)|(b))` on path `/b`:
slot 2 (the group `(a)`) did not participate and is skipped — the handler
receives three entries for a pattern with three groups and four slots. -/
theorem dispatch_captures_shape_witness :
    0 ∈ setMatches rSkip.routes reqSkipB.path ∧
    (∃ res : MRes,
      (rSkip.patterns.getD 0 .eps).search reqSkipB.path = some res ∧
      rSkip.handle reqSkipB =
        (rSkip.handlers.getD 0 dummyHandler).2 reqSkipB
          (some (res.1 ::
            (List.range' 1 (maxGroup (rSkip.patterns.getD 0 .eps))).filterMap
              fun g => lookupCap res.2.2 g)) ∧
      (maxGroup (rSkip.patterns.getD 0 .eps) = 0 →
        rSkip.handle reqSkipB =
          (rSkip.handlers.getD 0 dummyHandler).2 reqSkipB (some [res.1]))) ∧
    maxGroup (rSkip.patterns.getD 0 .eps) = 3 ∧
    rSkip.handle reqSkipB =
      hEcho reqSkipB (some ["/b".data, "b".data, "b".data]) :=
  ⟨by decide,
    dispatch_captures_shape bSkip rSkip reqSkipB 0 rfl (by decide) (by decide)
      (by decide),
    by decide, by decide⟩

/-- C5: when the path matches at least one pattern but no matching entry
has the request method, handle returns the fixed built-in 405 response
with its fixed body; the conclusion holds for every choice of handler and
fallback values, so no registered handler and not the fallback is
invoked. -/
theorem handle_method_not_allowed (r : Router) (req : Request)
    (hne : setMatches r.routes req.path ≠ [])
    (hall : ∀ j ∈ setMatches r.routes req.path,
      (r.handlers.getD j dummyHandler).1 ≠ req.method) :
    r.handle req = not_allowed ∧
    r.handle req = ⟨405, "Method Not Allowed".data⟩ := by
  have h1 : r.handle req = not_allowed := by
    unfold Router.handle
    have hnee : (setMatches r.routes req.path).isEmpty = false := by
      cases hms : setMatches r.routes req.path with
      | nil => exact absurd hms hne
      | cons x tl => simp
    simp only [hnee, Bool.false_eq_true, reduceIte]
    exact handleLoop_all_skip r req req.path _ hall
  exact ⟨h1, by rw [h1]; rfl⟩

/-- C5 witness: the users route is registered for GET only; a POST to a
matching path gets the fixed method-not-allowed response. -/
theorem handle_method_not_allowed_witness :
    setMatches rUsers.routes "/users/42/posts/7".data ≠ [] ∧
    (∀ j ∈ setMatches rUsers.routes "/users/42/posts/7".data,
      (rUsers.handlers.getD j dummyHandler).1 ≠ Method.POST) ∧
    rUsers.handle ⟨Method.POST, "/users/42/posts/7".data, []⟩ =
      ⟨405, "Method Not Allowed".data⟩ :=
  ⟨by decide, by decide,
    (handle_method_not_allowed rUsers ⟨Method.POST, "/users/42/posts/7".data, []⟩
      (by decide) (by decide)).2⟩

/-- C6: when no registered pattern matches the path, handle invokes the
fallback with the original request and `none` captures and returns its
response; with no custom fallback installed the response is the fixed
404 with body `Not Found`. -/
theorem handle_not_found_fallback (b : RouterBuilder) (r : Router)
    (req : Request) (hfin : b.finalize = .ok r)
    (hempty : setMatches r.routes req.path = []) :
    r.handle req = r.not_found req none ∧
    (b.not_found = none → r.handle req = ⟨404, "Not Found".data⟩) := by
  have h1 : r.handle req = r.not_found req none := by
    unfold Router.handle
    simp only [hempty, List.isEmpty_nil, reduceIte]
  refine ⟨h1, fun hnone => ?_⟩
  obtain ⟨-, -, -, hnf⟩ := finalize_fields b r hfin
  rw [h1, hnf, hnone]
  rfl

/-- C6 witness: no route of the users router matches `/nope`; its
builder installed no custom fallback, so the response is the fixed
default. -/
theorem handle_not_found_fallback_witness :
    bUsers.finalize = .ok rUsers ∧
    setMatches rUsers.routes "/nope".data = [] ∧
    bUsers.not_found = none ∧
    rUsers.handle ⟨Method.GET, "/nope".data, []⟩ = ⟨404, "Not Found".data⟩ :=
  ⟨rfl, by decide, rfl,
    (handle_not_found_fallback bUsers rUsers ⟨Method.GET, "/nope".data, []⟩
      rfl (by decide)).2 rfl⟩

/-- C7: finalize fails, with an error naming an offending accumulated
pattern that indeed does not compile, whenever some accumulated pattern
fails to compile (and then no Router value is produced — the result is
the error); and finalize returns a ready Router whenever every
accumulated pattern compiles. -/
theorem finalize_error_characterization (b : RouterBuilder) :
    ((∃ p ∈ b.routes, (parseRegex p).isOk = false) →
      ∃ e, b.finalize = .error e ∧ e.pattern ∈ b.routes ∧
        parseRegex e.pattern = .error e.cause) ∧
    ((∀ p ∈ b.routes, (parseRegex p).isOk = true) →
      ∃ r, b.finalize = .ok r) := by
  constructor
  · rintro ⟨p, hp, hbad⟩
    cases hc : compileAll b.routes with
    | error e =>
      obtain ⟨hm, hpe⟩ := compileAll_error _ _ hc
      refine ⟨e, ?_, hm, hpe⟩
      unfold RouterBuilder.finalize
      rw [hc]
    | ok rs =>
      have hok := compileAll_all_ok _ _ hc p hp
      rw [hbad] at hok
      exact absurd hok (by simp)
  · intro hall
    obtain ⟨rs, hc⟩ := compileAll_ok_of_all _ hall
    refine ⟨⟨rs, rs, b.handlers, b.not_found.getD default_not_found⟩, ?_⟩
    unfold RouterBuilder.finalize
    rw [hc]

/-- C7 witness: the crate's own test pattern `/[` (an unbalanced
character class) makes finalize fail with an error naming it, and the
all-valid users builder finalizes successfully. -/
theorem finalize_error_characterization_witness :
    (∃ p ∈ bBad.routes, (parseRegex p).isOk = false) ∧
    (∃ e, bBad.finalize = .error e ∧ e.pattern ∈ bBad.routes ∧
      parseRegex e.pattern = .error e.cause) ∧
    (∀ p ∈ bUsers.routes, (parseRegex p).isOk = true) ∧
    (∃ r, bUsers.finalize = .ok r) :=
  ⟨by decide, (finalize_error_characterization bBad).1 (by decide),
    by decide, (finalize_error_characterization bUsers).2 (by decide)⟩

/-- C8: handle is deterministic — it factors through an outcome selected
from the router, the request method and the request path alone, so two
requests with identical method and path select the same outcome (same
route index and captures content, or fallback, or method-not-allowed),
and handle mutates no router state (it is a pure function of the router
and the request). -/
theorem handle_deterministic (r : Router) (req1 req2 : Request)
    (hm : req1.method = req2.method) (hp : req1.path = req2.path) :
    dispatchSelection r req1.method req1.path =
      dispatchSelection r req2.method req2.path ∧
    r.handle req1 =
      runOutcome r req1 (dispatchSelection r req1.method req1.path) ∧
    r.handle req2 =
      runOutcome r req2 (dispatchSelection r req1.method req1.path) := by
  refine ⟨by rw [hm, hp], handle_eq_runOutcome r req1, ?_⟩
  rw [hm, hp]
  exact handle_eq_runOutcome r req2

/-- C8 witness: two requests for the same method and path (with different
bodies) against the users router select the same outcome and receive
responses determined by that shared outcome. -/
theorem handle_deterministic_witness :
    (⟨Method.GET, "/users/42/posts/7".data, "x".data⟩ : Request).method =
      (⟨Method.GET, "/users/42/posts/7".data, "y".data⟩ : Request).method ∧
    dispatchSelection rUsers Method.GET "/users/42/posts/7".data =
      dispatchSelection rUsers Method.GET "/users/42/posts/7".data ∧
    rUsers.handle ⟨Method.GET, "/users/42/posts/7".data, "x".data⟩ =
      runOutcome rUsers ⟨Method.GET, "/users/42/posts/7".data, "x".data⟩
        (dispatchSelection rUsers Method.GET "/users/42/posts/7".data) ∧
    rUsers.handle ⟨Method.GET, "/users/42/posts/7".data, "y".data⟩ =
      runOutcome rUsers ⟨Method.GET, "/users/42/posts/7".data, "y".data⟩
        (dispatchSelection rUsers Method.GET "/users/42/posts/7".data) :=
  ⟨rfl,
    (handle_deterministic rUsers
      ⟨Method.GET, "/users/42/posts/7".data, "x".data⟩
      ⟨Method.GET, "/users/42/posts/7".data, "y".data⟩ rfl rfl).1,
    (handle_deterministic rUsers
      ⟨Method.GET, "/users/42/posts/7".data, "x".data⟩
      ⟨Method.GET, "/users/42/posts/7".data, "y".data⟩ rfl rfl).2.1,
    (handle_deterministic rUsers
      ⟨Method.GET, "/users/42/posts/7".data, "x".data⟩
      ⟨Method.GET, "/users/42/posts/7".data, "y".data⟩ rfl rfl).2.2⟩

/-- C9: a Router produced by finalize from a builder whose pattern and
handler lists accumulated in lockstep satisfies the index-alignment
invariant: the combined set, the per-route patterns and the handler list
have one entry per registered route, position by position (the set and
patterns hold the compilation of the i-th accumulated pattern string,
the handlers the i-th registered pair), and every index the combined
matcher reports is in bounds for handlers and patterns. -/
theorem finalize_index_alignment (b : RouterBuilder) (r : Router)
    (hwf : b.routes.length = b.handlers.length)
    (hfin : b.finalize = .ok r) :
    r.routes.length = b.routes.length ∧
    r.patterns = r.routes ∧
    r.handlers = b.handlers ∧
    (∀ i, i < b.routes.length →
      parseRegex (b.routes.getD i []) = .ok (r.routes.getD i .eps)) ∧
    (∀ (uri : List Char) (i : Nat), i ∈ setMatches r.routes uri →
      i < r.handlers.length ∧ i < r.patterns.length) := by
  obtain ⟨hc, hpr, hh, -⟩ := finalize_fields b r hfin
  have hlen := compileAll_length _ _ hc
  refine ⟨hlen, hpr, hh, fun i hi => compileAll_get _ _ hc i hi, ?_⟩
  intro uri i hi
  have hi1 : i < r.routes.length := ((mem_setMatches r.routes uri i).mp hi).1
  constructor
  · rw [hh, ← hwf, ← hlen]; exact hi1
  · rw [hpr]; exact hi1

/-- C9 witness: the two-route router is index-aligned. -/
theorem finalize_index_alignment_witness :
    bTwo.routes.length = bTwo.handlers.length ∧
    bTwo.finalize = .ok rTwo ∧
    rTwo.routes.length = bTwo.routes.length ∧
    rTwo.patterns = rTwo.routes ∧
    rTwo.handlers = bTwo.handlers ∧
    (∀ (uri : List Char) (i : Nat), i ∈ setMatches rTwo.routes uri →
      i < rTwo.handlers.length ∧ i < rTwo.patterns.length) :=
  ⟨rfl, rfl,
    (finalize_index_alignment bTwo rTwo rfl rfl).1,
    (finalize_index_alignment bTwo rTwo rfl rfl).2.1,
    (finalize_index_alignment bTwo rTwo rfl rfl).2.2.1,
    (finalize_index_alignment bTwo rTwo rfl rfl).2.2.2.2⟩

/-- C10 counterexample: through the alternation route `a|b` on path
`zb`, handle dispatches to the registered handler with captures whose
first (and only) element is the whole-pattern match `b` — not the entire
request path. -/
theorem first_capture_entire_path_counterexample :
    bAlt.finalize = .ok rAlt ∧
    rAlt.handle reqZb = hEcho reqZb (some ["b".data]) ∧
    get_captures (rAlt.patterns.getD 0 .eps) reqZb.path = some ["b".data] ∧
    "b".data ≠ reqZb.path :=
  ⟨rfl, by decide, by decide, by decide⟩

/-- C10 amended: whenever handle dispatches to a registered handler, the
captures argument is `some` of a non-empty sequence whose first element
is the substring of the path matched by the whole pattern (regex slot 0,
a contiguous substring of the request path); when the compiled pattern is
anchored at both ends — as the added `\A` and `\z` achieve for every
route without a top-level alternation — that first element is the entire
request path. -/
theorem dispatch_captures_head
    (b : RouterBuilder) (r : Router) (req : Request) (i : Nat)
    (hfin : b.finalize = .ok r)
    (hi : i ∈ setMatches r.routes req.path)
    (hm : (r.handlers.getD i dummyHandler).1 = req.method)
    (hfirst : ∀ j ∈ setMatches r.routes req.path, j < i →
      (r.handlers.getD j dummyHandler).1 ≠ req.method) :
    ∃ res : MRes,
      (r.patterns.getD i .eps).search req.path = some res ∧
      r.handle req =
        (r.handlers.getD i dummyHandler).2 req
          (some (res.1 ::
            (List.range' 1 (maxGroup (r.patterns.getD i .eps))).filterMap
              fun g => lookupCap res.2.2 g)) ∧
      (∃ pre post, req.path = pre ++ res.1 ++ post) ∧
      (forcesStart (r.patterns.getD i .eps) = true →
        forcesEnd (r.patterns.getD i .eps) = true → res.1 = req.path) := by
  obtain ⟨res, hres⟩ := matched_search_some b r req.path i hfin hi
  refine ⟨res, hres, ?_, search_substring _ _ _ hres,
    fun hs he => (search_anchored _ _ _ hs he hres).1⟩
  rw [handle_selects_aux r req i hi hm hfirst,
    get_captures_eq_of_search _ _ _ hres]

/-- C10 witness: the users route is anchored at both ends, so the first
capture element is the entire request path. -/
theorem dispatch_captures_head_witness :
    0 ∈ setMatches rUsers.routes reqUsers.path ∧
    forcesStart (rUsers.patterns.getD 0 .eps) = true ∧
    forcesEnd (rUsers.patterns.getD 0 .eps) = true ∧
    (∃ res : MRes,
      (rUsers.patterns.getD 0 .eps).search reqUsers.path = some res ∧
      rUsers.handle reqUsers =
        (rUsers.handlers.getD 0 dummyHandler).2 reqUsers
          (some (res.1 ::
            (List.range' 1 (maxGroup (rUsers.patterns.getD 0 .eps))).filterMap
              fun g => lookupCap res.2.2 g)) ∧
      (∃ pre post, reqUsers.path = pre ++ res.1 ++ post) ∧
      (forcesStart (rUsers.patterns.getD 0 .eps) = true →
        forcesEnd (rUsers.patterns.getD 0 .eps) = true →
        res.1 = reqUsers.path)) :=
  ⟨by decide, by decide, by decide,
    dispatch_captures_head bUsers rUsers reqUsers 0 rfl (by decide) (by decide)
      (by decide)⟩

end Reroute

